import Mathlib

/-
Verification of the FLock-subnet validator core against its specification.
The Python sources are shallowly embedded: floats are modelled as rationals,
python None as Option.none, and the numpy nan produced by a 0/0 division as
an explicit constructor.  The module flockoff/constants.py is not part of
the provided sources; the few constants the claims need are modelled from
the spec and from literal values quoted in validator.py comments.
-/

/-- Result of a Python function returning a float, possibly the float nan
(from a 0.0/0.0 numpy division) or the implicit python None fall-through. -/
inductive PyRes where
  | pynone : PyRes
  | pynan : PyRes
  | pyval : ℚ → PyRes
deriving DecidableEq, Repr

/-- Modelled from the spec: constants.py is absent from src.  validator.py
line 428 states the sentinel raw score is 999. -/
def DEFAULT_RAW_SCORE : ℚ := 999

/-- Modelled from the spec: constants.py is absent from src.  Section 8 of
the spec fixes the threshold so that 0.1 * (1 + pct) is about 0.11,
hence pct = 0.1. -/
def LOSS_THRESHOLD_PCT : ℚ := 1/10

/-- Lower piecewise branch of compute_score (validator_utils.py lines 75-78):
score decreasing from 1 at min_bench to bench_height at benchmark_loss.
Under the branch guard a zero denominator forces a zero numerator, so the
Python value there is 0.0/0.0 = nan, modelled as pynan. -/
def lowerBranch (loss bench minb : ℚ) (p : ℕ) (bh : ℚ) : PyRes :=
  let num := (1 - bh) * (loss - bench) ^ p
  let den := (minb - bench) ^ p
  if den = 0 then .pynan else .pyval (num / den + bh)

/-- Upper piecewise branch of compute_score (validator_utils.py lines 82-85):
score decreasing from bench_height at benchmark_loss to 0 at max_bench. -/
def upperBranch (loss bench maxb : ℚ) (p : ℕ) (bh : ℚ) : PyRes :=
  let num := -bh * (loss - bench) ^ p
  let den := (maxb - bench) ^ p
  if den = 0 then .pynan else .pyval (num / den + bh)

/-- Embedding of compute_score (validator_utils.py lines 8-85).  Exponents
are modelled as integers (numpy pow of a negative base and a non-integer
exponent is nan, so the scoring curve only makes sense for integer power).
dns stands for constants.DEFAULT_NORMALIZED_SCORE, whose value is not in
src; every claim is proved for an arbitrary dns. -/
def compute_score (loss benchmark_loss min_bench max_bench : Option ℚ)
    (power : Option ℤ) (bench_height : ℚ)
    (miner_comp_id real_comp_id : Option ℕ) (dns : ℚ) : PyRes :=
  match loss with
  | none => .pyval 0
  | some l =>
    match power with
    | none => .pyval dns
    | some p =>
      if p ≤ 0 then .pyval dns
      else
        match real_comp_id with
        | none => .pyval dns
        | some rc =>
          if miner_comp_id ≠ some rc then .pyval dns
          else
            match benchmark_loss with
            | none => .pyval dns
            | some bench =>
              if bench ≤ 0 then .pyval dns
              else
                match min_bench, max_bench with
                | none, _ => .pyval dns
                | some _, none => .pyval dns
                | some minb, some maxb =>
                  if minb ≥ maxb then .pyval dns
                  else if l < minb then .pyval 1
                  else if l > maxb then .pyval 0
                  else if minb ≤ l ∧ l ≤ bench then
                    lowerBranch l bench minb p.toNat bench_height
                  else if bench ≤ l ∧ l ≤ maxb then
                    upperBranch l bench maxb p.toNat bench_height
                  else .pynone

/-- Python comparison score1 >= score2 on the modelled float results: numeric
values compare numerically, any comparison involving nan is false (as in
numpy), and the implicit None admits no order at all. -/
def pyGe : PyRes → PyRes → Bool
  | .pyval a, .pyval b => decide (b ≤ a)
  | _, _ => false

/-- One submission record as returned by the score store for a competition
day (database.py is not in src; the record fields are those read by
select_winner and recorded by record_submission in the test fixture).
Hotkeys, coldkeys and identifiers are modelled as numeric tokens. -/
structure Submission where
  uid : ℕ
  hotkey : ℕ
  coldkey : ℕ
  commitment_block : Option ℕ
  commitment_timestamp : Option ℕ
  eval_loss : Option ℚ
deriving DecidableEq, Repr

/-- Sort key component: s.get with default 10 to the 18, as in
validator_utils.py line 103. -/
def blockKey (s : Submission) : ℕ := s.commitment_block.getD (10 ^ 18)

/-- Sort key component for the commitment timestamp, same default. -/
def tsKey (s : Submission) : ℕ := s.commitment_timestamp.getD (10 ^ 18)

/-- The eval loss of a scored submission (only applied to submissions that
passed the isSome filter, so the default is never exercised). -/
def lossOf (s : Submission) : ℚ := s.eval_loss.getD 0

/-- List filter on a decidable predicate, written with ite so concrete
runs unfold by simp. -/
def filterP (p : α → Prop) [DecidablePred p] : List α → List α
  | [] => []
  | x :: xs => if p x then x :: filterP p xs else filterP p xs

/-- First element satisfying a decidable predicate, as Python next or the
first break of a scan loop. -/
def findFirst (p : α → Prop) [DecidablePred p] : List α → Option α
  | [] => none
  | x :: xs => if p x then some x else findFirst p xs

/-- Python list.remove: drop the first occurrence of u. -/
def eraseFirst (u : ℕ) : List ℕ → List ℕ
  | [] => []
  | x :: xs => if x = u then xs else x :: eraseFirst u xs

/-- Insert x in front of the first element y with le x y.  With le chosen
as (key of x is at most key of y) this reproduces the stable sort used by
the Python sorted builtin. -/
def insertSorted (le : α → α → Prop) [DecidableRel le] (x : α) :
    List α → List α
  | [] => [x]
  | y :: ys => if le x y then x :: y :: ys else y :: insertSorted le x ys

/-- Stable insertion sort, modelling the Python sorted builtin. -/
def sortedBy (le : α → α → Prop) [DecidableRel le] : List α → List α
  | [] => []
  | x :: xs => insertSorted le x (sortedBy le xs)

/-- Lexicographic comparison of the tuples (commitment_block,
commitment_timestamp) from validator_utils.py lines 102-103. -/
def subKeyLe (s t : Submission) : Prop :=
  blockKey s < blockKey t ∨ (blockKey s = blockKey t ∧ tsKey s ≤ tsKey t)

instance : DecidableRel subKeyLe := fun s t => by
  unfold subKeyLe; exact inferInstance

/-- Comparison by eval loss, the key of scored_by_loss. -/
def lossLe (s t : Submission) : Prop := lossOf s ≤ lossOf t

instance : DecidableRel lossLe := fun s t => by
  unfold lossLe; exact inferInstance

/-- The python expression hotkeys[u]: current hotkey registered at slot u
in the ownership map. -/
def hkLookup (hotkeys : List (ℕ × ℕ)) (u : ℕ) : ℕ :=
  ((findFirst (fun p => p.1 = u) hotkeys).map Prod.snd).getD 0

/-- The python expression subs[u].hotkey. -/
def subHotkey (subs : List Submission) (u : ℕ) : ℕ :=
  ((findFirst (fun s => s.uid = u) subs).map Submission.hotkey).getD 0

/-- Replacement rule a (validator_utils.py lines 115-118): every uid of the
ownership map whose current hotkey equals the stale submission hotkey, in
map order; the loop has no break, so all matches are appended. -/
def replacementsByHotkey (hotkeys : List (ℕ × ℕ)) (hk : ℕ) : List ℕ :=
  (filterP (fun p => p.2 = hk) hotkeys).map Prod.fst

/-- Replacement rule b (lines 121-127): first submission by ascending loss
with the same coldkey, a different uid, not already a winner, and whose
recorded hotkey still matches the ownership map. -/
def replacementByColdkey (subs scoredByLoss : List Submission)
    (hotkeys : List (ℕ × ℕ)) (w : List ℕ) (ck uid0 : ℕ) : Option ℕ :=
  (findFirst (fun c =>
    c.coldkey = ck ∧ c.uid ≠ uid0 ∧ c.uid ∉ w ∧
      hkLookup hotkeys c.uid = subHotkey subs c.uid) scoredByLoss).map
    Submission.uid

/-- Replacement rule c (lines 128-133): first submission by ascending loss
not already a winner, a different uid, hotkey still matching ownership. -/
def replacementAny (subs scoredByLoss : List Submission)
    (hotkeys : List (ℕ × ℕ)) (w : List ℕ) (uid0 : ℕ) : Option ℕ :=
  (findFirst (fun c =>
    c.uid ∉ w ∧ c.uid ≠ uid0 ∧
      hkLookup hotkeys c.uid = subHotkey subs c.uid) scoredByLoss).map
    Submission.uid

/-- One iteration of the reconciliation loop of select_winner (lines
109-133) for eligible submission s over the current winner list. -/
def reconcileStep (subs scoredByLoss : List Submission)
    (hotkeys : List (ℕ × ℕ)) (w : List ℕ) (s : Submission) : List ℕ :=
  if s.hotkey = hkLookup hotkeys s.uid then w
  else
    let w1 := eraseFirst s.uid w
    let byHk := replacementsByHotkey hotkeys s.hotkey
    if byHk ≠ [] then w1 ++ byHk
    else
      match replacementByColdkey subs scoredByLoss hotkeys w1 s.coldkey s.uid with
      | some u => w1 ++ [u]
      | none =>
        match replacementAny subs scoredByLoss hotkeys w1 s.uid with
        | some u => w1 ++ [u]
        | none => w1

/-- Embedding of select_winner (validator_utils.py lines 88-135).  subs is
the competition submission table in uid order (the store returns a map
keyed by uid), hotkeys the current ownership map in slot order. -/
def select_winner (subs : List Submission) (hotkeys : List (ℕ × ℕ)) :
    Option (List ℕ) :=
  let scored := filterP (fun s => s.eval_loss ≠ none) subs
  match scored.map lossOf with
  | [] => none
  | l0 :: ls =>
    let lmin := ls.foldl (fun m x => if x < m then x else m) l0
    let threshold := lmin * (1 + LOSS_THRESHOLD_PCT)
    let eligible := filterP (fun s => lossOf s ≤ threshold) scored
    if eligible = [] then none
    else
      let eligibleSorted := sortedBy subKeyLe eligible
      let scoredByLoss := sortedBy lossLe scored
      let winners0 := eligibleSorted.map Submission.uid
      some (eligibleSorted.foldl (reconcileStep subs scoredByLoss hotkeys) winners0)

/-- Helper to build a fixture submission with concrete fields. -/
def mkSub (uid hk ck blk ts : ℕ) (loss : ℚ) : Submission :=
  ⟨uid, hk, ck, some blk, some ts, some loss⟩

/-- The eight submissions of test_select_winner (test_scoring.py lines
199-224): hotkey hN is token 100+N, coldkey cN is token N; timestamps
follow insertion order. -/
def fixtureSubs : List Submission :=
  [ mkSub 0 100 0 0 0 (1/10),
    mkSub 1 101 1 1 1 (101/1000),
    mkSub 2 102 2 2 2 10,
    mkSub 3 103 3 3 3 3,
    mkSub 4 104 4 4 4 (1001/10000),
    mkSub 5 105 4 4 5 55,
    mkSub 6 106 6 4 6 (1001/10000),
    mkSub 7 107 7 4 7 (67/10) ]

/-- First ownership map of the test: uids 3,4,5,6 re-registered with fresh
hotkeys h33, h44, h55, h66, and uid 7 now holds hotkey h6. -/
def fixtureMapA : List (ℕ × ℕ) :=
  [(0, 100), (1, 101), (2, 102), (3, 133), (4, 144), (5, 155), (6, 166), (7, 106)]

/-- Second ownership map of the test: as the first, but uid 5 still holds
its submission hotkey h5. -/
def fixtureMapB : List (ℕ × ℕ) :=
  [(0, 100), (1, 101), (2, 102), (3, 133), (4, 144), (5, 105), (6, 166), (7, 106)]

/-- Embedding of count_similar (validator_utils.py lines 146-149): size of
the intersection of the two sets of canonical row fingerprints.  The
canonical dump json.dumps(row, sort_keys=True) is abstracted as the
fingerprint itself, a numeric token. -/
def count_similar (a b : List ℕ) : ℕ := (a.toFinset ∩ b.toFinset).card

/-- State threaded through the duplicate-detection loops of run_step
(validator.py lines 518-599): uids marked processed, the recorded duplicate
groups in discovery order, and the uids assigned the sentinel raw score by
the containment (validity) check. -/
structure DupState where
  processed : List ℕ
  groups : List (List ℕ)
  invalid : List ℕ
deriving DecidableEq, Repr

/-- Inner loop over uids_to_eval for a fixed valid uid i (validator.py
lines 554-598): each unprocessed j sharing more than D fingerprints with i
yields the two-element group [i, j] (similar_uids is re-created per j), and
both members are added to processed at once. -/
def innerLoop (D : ℕ) (data : ℕ → List ℕ) (i : ℕ) :
    List ℕ → DupState → DupState
  | [], st => st
  | j :: rest, st =>
    if i ≠ j ∧ j ∉ st.processed then
      if count_similar (data j) (data i) > D then
        innerLoop D data i rest
          { st with
            groups := st.groups ++ [[i, j]],
            processed := st.processed ++ [i, j] }
      else innerLoop D data i rest st
    else innerLoop D data i rest st

/-- Outer loop over uids_to_check_duplicate (validator.py lines 518-598):
processed uids are skipped, a dataset not fully contained in the canonical
set is recorded invalid (assigned the sentinel) and skipped, and otherwise
the inner pairing loop runs.  Metadata and dataset downloads are assumed
available for the sampled uids. -/
def outerLoop (D : ℕ) (data : ℕ → List ℕ) (evalSet : List ℕ)
    (evalUids : List ℕ) : List ℕ → DupState → DupState
  | [], st => st
  | i :: rest, st =>
    if i ∈ st.processed then outerLoop D data evalSet evalUids rest st
    else if count_similar evalSet (data i) ≠ (data i).length then
      outerLoop D data evalSet evalUids rest
        { st with invalid := st.invalid ++ [i] }
    else outerLoop D data evalSet evalUids rest (innerLoop D data i evalUids st)

/-- The whole duplicate-detection phase starting from the empty state. -/
def dupRun (D : ℕ) (data : ℕ → List ℕ) (evalSet : List ℕ)
    (dupUids evalUids : List ℕ) : DupState :=
  outerLoop D data evalSet evalUids dupUids ⟨[], [], []⟩

/-- Post-processing of the recorded groups (validator.py lines 600-609):
each group is sorted by commitment block ascending and every member except
the first is assigned the sentinel raw score.  Returns the list of
disqualified uids in that order. -/
def disqualifiedOf (block : ℕ → ℕ) (groups : List (List ℕ)) : List ℕ :=
  groups.foldl
    (fun acc g => acc ++ (sortedBy (fun a b => block a ≤ block b) g).drop 1) []

/-- Three-dataset fixture: dataset 1 overlaps datasets 2 and 3 in two
fingerprints each, datasets 2 and 3 are disjoint; all are contained in the
canonical set. -/
def dupData : ℕ → List ℕ := fun u =>
  if u = 1 then [0, 1, 2, 3]
  else if u = 2 then [0, 1, 8]
  else if u = 3 then [2, 3, 9]
  else []

/-- Canonical fingerprint set for the fixture. -/
def dupEvalSet : List ℕ := [0, 1, 2, 3, 4, 5, 6, 7, 8, 9]

/-- Commitment blocks for the fixture: dataset 2 earliest, then 3, then 1. -/
def dupBlock : ℕ → ℕ := fun u =>
  if u = 1 then 3 else if u = 2 then 1 else 2

/-- Invariant of the pairing loops: every recorded group is a two-element
group [i, j] of distinct uids whose datasets share more than D
fingerprints, both already marked processed. -/
def PairSpec (D : ℕ) (data : ℕ → List ℕ) (st : DupState) : Prop :=
  ∀ g ∈ st.groups, ∃ i j, g = [i, j] ∧ i ≠ j ∧
    count_similar (data j) (data i) > D ∧
    i ∈ st.processed ∧ j ∈ st.processed

/-- Invariant: every uid recorded invalid failed the containment check. -/
def InvalidSpec (data : ℕ → List ℕ) (evalSet : List ℕ) (st : DupState) :
    Prop :=
  ∀ u ∈ st.invalid, count_similar evalSet (data u) ≠ (data u).length

/-- The pending reveal record persisted in memory at commit time
(validator.py lines 798-802). -/
structure PendingReveal where
  uids : List ℕ
  weights : List ℚ
  salt : List ℕ
deriving DecidableEq, Repr

/-- The orchestrator state the commit-reveal claims are about: the epoch
boundary last submitted to and the optional pending reveal. -/
structure ValidatorState where
  last_submitted_epoch : ℤ
  pending_reveal : Option PendingReveal
deriving DecidableEq, Repr

/-- Embedding of Validator.should_set_weights (validator.py lines 391-399):
false once the current epoch boundary has been submitted, else true when at
most block_threshold blocks remain. -/
def should_set_weights (st : ValidatorState)
    (currentBlock nextEpochBlock threshold : ℤ) : Bool :=
  if st.last_submitted_epoch = nextEpochBlock then false
  else decide (nextEpochBlock - currentBlock ≤ threshold)

/-- Embedding of the weight-commit tail of Validator.run_step (validator.py
lines 781-813): when the gate is true a commit is attempted; on success the
pending reveal is stored; in either case last_submitted_epoch is then set
to the next epoch boundary.  commitSuccess abstracts the outcome of the
chain call set_weights_with_err_msg. -/
def commitPhase (st : ValidatorState)
    (currentBlock nextEpochBlock threshold : ℤ)
    (uids : List ℕ) (weights : List ℚ) (salt : List ℕ)
    (commitSuccess : Bool) : ValidatorState :=
  if should_set_weights st currentBlock nextEpochBlock threshold then
    let st1 :=
      if commitSuccess then
        { st with pending_reveal := some ⟨uids, weights, salt⟩ }
      else st
    { st1 with last_submitted_epoch := nextEpochBlock }
  else st

/-- Embedding of the state initialisation in Validator.__init__
(validator.py lines 347-352): last_submitted_epoch is recomputed from the
chain as the next epoch start minus the tempo, and pending_reveal is
unconditionally None; no persisted state is read. -/
def initState (nextEpochStartBlock tempo : ℤ) : ValidatorState :=
  { last_submitted_epoch := nextEpochStartBlock - tempo,
    pending_reveal := none }

/-- Embedding of the per-uid raw-score write decision of the evaluation
loop of run_step (validator.py lines 611-709): dupScore is the raw score
already assigned by the duplicate phase if any, metadata the retrieved
submission metadata (its dataset revision), lastRev the stored revision,
gate the should_set_weights early break, and trainResult the outcome of
train_lora.  The result is the raw score written to the store for this
uid, or none when nothing is written. -/
def evalLoopRawWrite (dupScore : Option ℚ) (gate : Bool)
    (metadata : Option ℕ) (lastRev : Option ℕ)
    (trainResult : Except Unit ℚ) : Option ℚ :=
  if dupScore = some DEFAULT_RAW_SCORE then none
  else if gate then none
  else
    match metadata with
    | none => some DEFAULT_RAW_SCORE
    | some rev =>
      if lastRev = some rev then none
      else
        match trainResult with
        | .ok loss => some loss
        | .error _ => some DEFAULT_RAW_SCORE

/-- C3: on the fixture of test_select_winner - losses 0.1, 0.101, 10, 3,
0.1001, 55, 0.1001, 6.7 at uids 0..7, commitment blocks 0,1,2,3,4,4,4,4,
coldkey c4 shared by uids 4 and 5, and threshold 0.1 * 1.1 = 0.11 making
uids 0, 1, 4, 6 eligible - select_winner returns exactly [0, 1, 2, 7]
under the first ownership map and exactly [0, 1, 5, 7] under the second. -/
theorem select_winner_fixture :
    (filterP (fun s => lossOf s ≤ (1/10) * (1 + LOSS_THRESHOLD_PCT))
      fixtureSubs).map Submission.uid = [0, 1, 4, 6] ∧
    select_winner fixtureSubs fixtureMapA = some [0, 1, 2, 7] ∧
    select_winner fixtureSubs fixtureMapB = some [0, 1, 5, 7] := by
  refine ⟨?_, ?_, ?_⟩ <;>
  norm_num [select_winner, fixtureSubs, fixtureMapA, fixtureMapB, mkSub,
    lossOf, blockKey, tsKey, sortedBy, insertSorted, subKeyLe, lossLe,
    reconcileStep, hkLookup, subHotkey, replacementsByHotkey,
    replacementByColdkey, replacementAny, LOSS_THRESHOLD_PCT, filterP,
    findFirst, eraseFirst, Option.some_ne_none, List.cons_ne_nil]

theorem innerLoop_processed_mono (D : ℕ) (data : ℕ → List ℕ) (i : ℕ)
    (l : List ℕ) : ∀ st : DupState, ∀ u ∈ st.processed,
    u ∈ (innerLoop D data i l st).processed := by
  induction l with
  | nil => intro st u h; simpa [innerLoop] using h
  | cons j rest ih =>
    intro st u h
    unfold innerLoop
    split
    · split
      · exact ih _ u (List.mem_append_left _ h)
      · exact ih st u h
    · exact ih st u h

theorem innerLoop_invalid_eq (D : ℕ) (data : ℕ → List ℕ) (i : ℕ)
    (l : List ℕ) : ∀ st : DupState,
    (innerLoop D data i l st).invalid = st.invalid := by
  induction l with
  | nil => intro st; simp [innerLoop]
  | cons j rest ih =>
    intro st
    unfold innerLoop
    split
    · split
      · exact ih _
      · exact ih st
    · exact ih st

theorem innerLoop_pairSpec (D : ℕ) (data : ℕ → List ℕ) (i : ℕ)
    (l : List ℕ) : ∀ st : DupState, PairSpec D data st →
    PairSpec D data (innerLoop D data i l st) := by
  induction l with
  | nil => intro st h; simpa [innerLoop] using h
  | cons j rest ih =>
    intro st h
    unfold innerLoop
    split
    · split
      · refine ih _ ?_
        rintro g hg
        rcases List.mem_append.mp hg with hgl | hgr
        · obtain ⟨a, b, hab, hne, hsim, ha, hb⟩ := h g hgl
          exact ⟨a, b, hab, hne, hsim, List.mem_append_left _ ha,
            List.mem_append_left _ hb⟩
        · have hg2 : g = [i, j] := by simpa using hgr
          rename_i hcond hsim
          exact ⟨i, j, hg2, hcond.1, hsim,
            List.mem_append_right _ (by simp),
            List.mem_append_right _ (by simp)⟩
      · exact ih st h
    · exact ih st h

theorem outerLoop_pairSpec (D : ℕ) (data : ℕ → List ℕ) (evalSet : List ℕ)
    (evalUids : List ℕ) (l : List ℕ) : ∀ st : DupState, PairSpec D data st →
    PairSpec D data (outerLoop D data evalSet evalUids l st) := by
  induction l with
  | nil => intro st h; simpa [outerLoop] using h
  | cons i rest ih =>
    intro st h
    unfold outerLoop
    split
    · exact ih st h
    · split
      · refine ih _ ?_
        rintro g hg
        exact h g hg
      · exact ih _ (innerLoop_pairSpec D data i evalUids st h)

theorem outerLoop_invalidSpec (D : ℕ) (data : ℕ → List ℕ)
    (evalSet : List ℕ) (evalUids : List ℕ) (l : List ℕ) :
    ∀ st : DupState, InvalidSpec data evalSet st →
    InvalidSpec data evalSet (outerLoop D data evalSet evalUids l st) := by
  induction l with
  | nil => intro st h; simpa [outerLoop] using h
  | cons i rest ih =>
    intro st h
    unfold outerLoop
    split
    · exact ih st h
    · split
      · refine ih _ ?_
        rintro u hu
        rcases List.mem_append.mp hu with hul | hur
        · exact h u hul
        · have : u = i := by simpa using hur
          subst this
          assumption
      · refine ih _ ?_
        rintro u hu
        rw [innerLoop_invalid_eq] at hu
        exact h u hu

theorem disq_acc_mono (block : ℕ → ℕ) (L : List (List ℕ)) :
    ∀ (acc : List ℕ) (x : ℕ), x ∈ acc →
    x ∈ L.foldl
      (fun a g => a ++ (sortedBy (fun a b => block a ≤ block b) g).drop 1)
      acc := by
  induction L with
  | nil => intro acc x h; simpa using h
  | cons g rest ih =>
    intro acc x h
    simp only [List.foldl_cons]
    exact ih _ x (List.mem_append_left _ h)

theorem mem_disqualifiedOf_aux (block : ℕ → ℕ) (L : List (List ℕ)) :
    ∀ (acc : List ℕ) (g : List ℕ) (x : ℕ), g ∈ L →
    x ∈ (sortedBy (fun a b => block a ≤ block b) g).drop 1 →
    x ∈ L.foldl
      (fun a g => a ++ (sortedBy (fun a b => block a ≤ block b) g).drop 1)
      acc := by
  induction L with
  | nil => intro acc g x hg; exact absurd hg (List.not_mem_nil g)
  | cons g0 rest ih =>
    intro acc g x hg hx
    simp only [List.foldl_cons]
    rcases List.mem_cons.mp hg with h | h
    · subst h
      exact disq_acc_mono block rest _ x (List.mem_append_right _ hx)
    · exact ih _ g x h hx

theorem sortedBy_pair_drop (block : ℕ → ℕ) (i j : ℕ) :
    (sortedBy (fun a b => block a ≤ block b) [i, j]).drop 1 =
      if block i ≤ block j then [j] else [i] := by
  by_cases h : block i ≤ block j <;>
    simp [sortedBy, insertSorted, h]

/-- C4 (amended): duplicate groups recorded by the detection loops are
always pairs [i, j] of distinct uids sharing more than
DEFAULT_DUPLICATE_COUNT fingerprints, found pairwise in discovery order and
not merged transitively; both members of a pair (including the retained
earlier one) are marked processed and so excluded from further pairwise
comparisons, and within each pair, after sorting by commitment block
ascending, the later-committed member is assigned DEFAULT_RAW_SCORE. -/
theorem dup_groups_are_pairs
    (D : ℕ) (data : ℕ → List ℕ) (evalSet : List ℕ)
    (dupUids evalUids : List ℕ) (block : ℕ → ℕ) :
    ∀ g ∈ (dupRun D data evalSet dupUids evalUids).groups,
      ∃ i j, g = [i, j] ∧ i ≠ j ∧ count_similar (data j) (data i) > D ∧
        i ∈ (dupRun D data evalSet dupUids evalUids).processed ∧
        j ∈ (dupRun D data evalSet dupUids evalUids).processed ∧
        (if block i ≤ block j then j else i) ∈
          disqualifiedOf block (dupRun D data evalSet dupUids evalUids).groups := by
  intro g hg
  have hps : PairSpec D data (dupRun D data evalSet dupUids evalUids) := by
    refine outerLoop_pairSpec D data evalSet evalUids dupUids ⟨[], [], []⟩ ?_
    intro g hg
    exact absurd hg (List.not_mem_nil g)
  obtain ⟨i, j, hij, hne, hsim, hi, hj⟩ := hps g hg
  refine ⟨i, j, hij, hne, hsim, hi, hj, ?_⟩
  have hdrop : (if block i ≤ block j then j else i) ∈
      (sortedBy (fun a b => block a ≤ block b) [i, j]).drop 1 := by
    rw [sortedBy_pair_drop]
    split <;> simp
  subst hij
  unfold disqualifiedOf
  exact mem_disqualifiedOf_aux block _ [] [i, j] _ hg hdrop

theorem dup_groups_are_pairs_witness :
    ∃ i j, ([1, 2] : List ℕ) = [i, j] ∧ i ≠ j ∧
      count_similar (dupData j) (dupData i) > 1 ∧
      i ∈ (dupRun 1 dupData dupEvalSet [1, 2, 3] [2, 3]).processed ∧
      j ∈ (dupRun 1 dupData dupEvalSet [1, 2, 3] [2, 3]).processed ∧
      (if dupBlock i ≤ dupBlock j then j else i) ∈
        disqualifiedOf dupBlock
          (dupRun 1 dupData dupEvalSet [1, 2, 3] [2, 3]).groups :=
  dup_groups_are_pairs 1 dupData dupEvalSet [1, 2, 3] [2, 3] dupBlock
    [1, 2] (by decide)

/-- C4 fails as stated: datasets 1 and 2 overlap above the threshold, as do
1 and 3, so under the claim they would merge transitively into one group
whose earliest committer (uid 2, block 1) is retained while uids 3 and 1
are disqualified and only those two are marked processed.  The code instead
records two pair groups, disqualifies only uid 1, never disqualifies uid 3,
and marks the retained uid 2 processed. -/
theorem dup_transitive_counterexample :
    count_similar (dupData 2) (dupData 1) > 1 ∧
    count_similar (dupData 3) (dupData 1) > 1 ∧
    dupBlock 2 < dupBlock 3 ∧ dupBlock 3 < dupBlock 1 ∧
    (dupRun 1 dupData dupEvalSet [1, 2, 3] [2, 3]).groups = [[1, 2], [1, 3]] ∧
    disqualifiedOf dupBlock
      (dupRun 1 dupData dupEvalSet [1, 2, 3] [2, 3]).groups = [1, 1] ∧
    2 ∈ (dupRun 1 dupData dupEvalSet [1, 2, 3] [2, 3]).processed ∧
    2 ∉ disqualifiedOf dupBlock
      (dupRun 1 dupData dupEvalSet [1, 2, 3] [2, 3]).groups ∧
    3 ∉ disqualifiedOf dupBlock
      (dupRun 1 dupData dupEvalSet [1, 2, 3] [2, 3]).groups := by decide

/-- C5 (amended): the containment check of run_step accepts a sampled
dataset if and only if its row fingerprints are pairwise distinct and all
appear in the canonical evaluation set; every uid recorded invalid by the
detection phase (and thus immediately assigned DEFAULT_RAW_SCORE and
skipped) failed that check. -/
theorem validity_containment_spec :
    (∀ evalSet m : List ℕ,
      (count_similar evalSet m = m.length ↔
        m.Nodup ∧ ∀ x ∈ m, x ∈ evalSet)) ∧
    (∀ (D : ℕ) (data : ℕ → List ℕ) (evalSet dupUids evalUids : List ℕ),
      ∀ u ∈ (dupRun D data evalSet dupUids evalUids).invalid,
        count_similar evalSet (data u) ≠ (data u).length) := by
  constructor
  · intro a m
    unfold count_similar
    constructor
    · intro h
      have hsub : a.toFinset ∩ m.toFinset ⊆ m.toFinset :=
        Finset.inter_subset_right
      have hc1 : (a.toFinset ∩ m.toFinset).card ≤ m.toFinset.card :=
        Finset.card_le_card hsub
      have hc2 : m.toFinset.card ≤ m.length := m.toFinset_card_le
      have hdedup : m.toFinset.card = m.length := by omega
      have hnodup : m.Nodup := by
        have hca := List.card_toFinset m
        have hsub2 : m.dedup.Sublist m := List.dedup_sublist m
        have hlen : m.dedup.length = m.length := by omega
        have heqm : m.dedup = m := hsub2.eq_of_length hlen
        exact List.dedup_eq_self.mp heqm
      refine ⟨hnodup, ?_⟩
      have heq : a.toFinset ∩ m.toFinset = m.toFinset :=
        Finset.eq_of_subset_of_card_le hsub (by omega)
      intro x hx
      have hxm : x ∈ m.toFinset := List.mem_toFinset.mpr hx
      have hxi : x ∈ a.toFinset ∩ m.toFinset := by rw [heq]; exact hxm
      exact List.mem_toFinset.mp (Finset.mem_of_mem_inter_left hxi)
    · rintro ⟨hnodup, hcont⟩
      have hsub : m.toFinset ⊆ a.toFinset := by
        intro x hx
        exact List.mem_toFinset.mpr (hcont x (List.mem_toFinset.mp hx))
      rw [Finset.inter_eq_right.mpr hsub]
      exact List.toFinset_card_of_nodup hnodup
  · intro D data evalSet dupUids evalUids u hu
    have hs : InvalidSpec data evalSet (dupRun D data evalSet dupUids evalUids) := by
      refine outerLoop_invalidSpec D data evalSet evalUids dupUids ⟨[], [], []⟩ ?_
      intro v hv
      exact absurd hv (List.not_mem_nil v)
    exact hs u hu

theorem validity_containment_spec_witness :
    (count_similar [5] [5] = ([5] : List ℕ).length) ∧
    count_similar [5] ((fun _ : ℕ => [5, 5]) 0) ≠
      (((fun _ : ℕ => [5, 5]) 0 : List ℕ)).length :=
  ⟨(validity_containment_spec.1 [5] [5]).mpr ⟨by decide, by decide⟩,
   validity_containment_spec.2 0 (fun _ => [5, 5]) [5] [0] [] 0 (by decide)⟩

/-- C5 fails as stated: a dataset consisting of the fingerprint 5 twice has
every fingerprint inside the canonical set [5], yet the containment check
compares the distinct-fingerprint count 1 with the row count 2 and records
the uid invalid, assigning the sentinel raw score. -/
theorem containment_counterexample :
    (∀ x ∈ ([5, 5] : List ℕ), x ∈ ([5] : List ℕ)) ∧
    count_similar [5] [5, 5] = 1 ∧ ([5, 5] : List ℕ).length = 2 ∧
    (dupRun 0 (fun _ => [5, 5]) [5] [0] []).invalid = [0] := by decide

/-- C1 fails as stated: from a fresh state (boundary 360 never submitted),
with 10 blocks remaining and threshold 50 the gate is true; after a FAILED
commit the code still sets last_submitted_epoch to 360, so the state
changed and the gate is false for every later cycle of the same epoch - the
commit is not re-attempted. -/
theorem commit_failure_counterexample :
    should_set_weights ⟨0, none⟩ 350 360 50 = true ∧
    commitPhase ⟨0, none⟩ 350 360 50 [0, 1] [0, 1] [7] false ≠ ⟨0, none⟩ ∧
    (commitPhase ⟨0, none⟩ 350 360 50 [0, 1] [0, 1] [7] false).last_submitted_epoch
      = 360 ∧
    should_set_weights
      (commitPhase ⟨0, none⟩ 350 360 50 [0, 1] [0, 1] [7] false) 355 360 50
      = false := by decide

/-- C1 (amended): when the epoch-boundary gate is true and the commit
fails, no PendingReveal is created, but last_submitted_epoch IS advanced to
the next epoch boundary, so the gate is false for the remainder of that
epoch and the commit is not re-attempted until the boundary changes. -/
theorem commit_failure_advances_epoch (st : ValidatorState)
    (currentBlock nextEpochBlock threshold : ℤ)
    (uids : List ℕ) (weights : List ℚ) (salt : List ℕ)
    (hgate : should_set_weights st currentBlock nextEpochBlock threshold = true) :
    commitPhase st currentBlock nextEpochBlock threshold uids weights salt false
      = ⟨nextEpochBlock, st.pending_reveal⟩ ∧
    ∀ laterBlock : ℤ,
      should_set_weights
        (commitPhase st currentBlock nextEpochBlock threshold uids weights salt false)
        laterBlock nextEpochBlock threshold = false := by
  have hne : st.last_submitted_epoch ≠ nextEpochBlock := by
    intro h
    simp [should_set_weights, h] at hgate
  have hle : nextEpochBlock - currentBlock ≤ threshold := by
    by_cases h : st.last_submitted_epoch = nextEpochBlock
    · exact absurd h hne
    · simpa [should_set_weights, h] using hgate
  constructor
  · simp [commitPhase, should_set_weights, hne, hle]
  · intro laterBlock
    simp [commitPhase, should_set_weights, hne, hle]

theorem commit_failure_advances_epoch_witness :
    commitPhase ⟨0, none⟩ 350 360 50 [0, 1] [0, 1] [7] false
      = ⟨360, (⟨0, none⟩ : ValidatorState).pending_reveal⟩ ∧
    ∀ laterBlock : ℤ,
      should_set_weights
        (commitPhase ⟨0, none⟩ 350 360 50 [0, 1] [0, 1] [7] false)
        laterBlock 360 50 = false :=
  commit_failure_advances_epoch ⟨0, none⟩ 350 360 50 [0, 1] [0, 1] [7]
    (by decide)

/-- C2 fails as stated: a restart never reloads a pending reveal.  With a
next epoch start of 720 and tempo 360, the freshly initialised state has
pending_reveal None - in particular not the pending reveal persisted before
the restart - and last_submitted_epoch 360 rather than a reloaded value, so
reveal attempts are not resumed. -/
theorem restart_counterexample :
    (initState 720 360).pending_reveal = none ∧
    (initState 720 360).pending_reveal ≠ some ⟨[0, 1], [0, 1], [7]⟩ ∧
    (initState 720 360).last_submitted_epoch = 360 := by decide

/-- C2 (amended): neither PendingReveal nor lastSubmittedEpoch is persisted
to or reloaded from stable storage.  __init__ always starts with
pending_reveal None (so a reveal pending before a restart is lost, not
resumed) and last_submitted_epoch equal to the next epoch start minus the
tempo; for a positive tempo this differs from the next boundary, so the
gate can become true again and a second commit within the same epoch is
possible after a restart. -/
theorem restart_resets_state (nextEpochStartBlock tempo : ℤ)
    (currentBlock threshold : ℤ) (htempo : 0 < tempo)
    (hclose : nextEpochStartBlock - currentBlock ≤ threshold) :
    (initState nextEpochStartBlock tempo).pending_reveal = none ∧
    (initState nextEpochStartBlock tempo).last_submitted_epoch
      = nextEpochStartBlock - tempo ∧
    should_set_weights (initState nextEpochStartBlock tempo)
      currentBlock nextEpochStartBlock threshold = true := by
  refine ⟨rfl, rfl, ?_⟩
  have hne : nextEpochStartBlock - tempo ≠ nextEpochStartBlock := by omega
  simp [should_set_weights, initState, hne, hclose]

theorem restart_resets_state_witness :
    (initState 720 360).pending_reveal = none ∧
    (initState 720 360).last_submitted_epoch = 720 - 360 ∧
    should_set_weights (initState 720 360) 715 720 50 = true :=
  restart_resets_state 720 360 715 50 (by decide) (by decide)

/-- C9 fails as stated: for a sampled uid with no raw score from the
duplicate phase and no submission metadata this cycle, the evaluation loop
does not skip silently - it writes the sentinel DEFAULT_RAW_SCORE (999) to
the score store. -/
theorem missing_metadata_counterexample :
    evalLoopRawWrite none false none none (.error ()) = some DEFAULT_RAW_SCORE ∧
    some DEFAULT_RAW_SCORE ≠ (none : Option ℚ) := by
  constructor
  · rfl
  · simp

/-- C9 (amended): in the evaluation loop, a sampled participant with
missing metadata is assigned the sentinel DEFAULT_RAW_SCORE - its stored
raw score is overwritten, not left unchanged - regardless of the stored
revision or the (never reached) training outcome, whenever the duplicate
phase did not already assign the sentinel and the epoch gate has not fired. -/
theorem missing_metadata_writes_sentinel
    (dupScore : Option ℚ) (lastRev : Option ℕ) (trainResult : Except Unit ℚ)
    (hdup : dupScore ≠ some DEFAULT_RAW_SCORE) :
    evalLoopRawWrite dupScore false none lastRev trainResult
      = some DEFAULT_RAW_SCORE := by
  simp [evalLoopRawWrite, hdup]

theorem missing_metadata_writes_sentinel_witness :
    evalLoopRawWrite none false none none (.error ())
      = some DEFAULT_RAW_SCORE :=
  missing_metadata_writes_sentinel none none (.error ()) (by simp)

theorem lowerBranch_ne_pynone (l bench minb bh : ℚ) (p : ℕ) :
    lowerBranch l bench minb p bh ≠ .pynone := by
  simp only [lowerBranch]
  split <;> simp

theorem upperBranch_ne_pynone (l bench maxb bh : ℚ) (p : ℕ) :
    upperBranch l bench maxb p bh ≠ .pynone := by
  simp only [upperBranch]
  split <;> simp

theorem score_lower_val (l bench minb maxb bh : ℚ) (p : ℤ) (cid : ℕ)
    (dns : ℚ) (hp : 0 < p) (hb : 0 < bench) (h1 : minb < bench)
    (h2 : bench < maxb) (hl1 : minb ≤ l) (hl2 : l ≤ bench) :
    compute_score (some l) (some bench) (some minb) (some maxb) (some p) bh
      (some cid) (some cid) dns =
      .pyval ((1 - bh) * ((bench - l) / (bench - minb)) ^ p.toNat + bh) := by
  have hple : ¬ p ≤ 0 := by omega
  have hble : ¬ bench ≤ 0 := by linarith
  have hge : ¬ minb ≥ maxb := by linarith
  have hlt : ¬ l < minb := by linarith
  have hgt : ¬ l > maxb := by linarith
  have hden : minb - bench ≠ 0 := sub_ne_zero_of_ne (ne_of_lt h1)
  have hdenp : (minb - bench) ^ p.toNat ≠ 0 := pow_ne_zero _ hden
  have hbase : (l - bench) / (minb - bench) = (bench - l) / (bench - minb) := by
    rw [show l - bench = -(bench - l) by ring,
        show minb - bench = -(bench - minb) by ring, neg_div_neg_eq]
  simp only [compute_score, lowerBranch]
  rw [if_neg hple, if_neg (not_not_intro rfl), if_neg hble, if_neg hge,
      if_neg hlt, if_neg hgt, if_pos ⟨hl1, hl2⟩, if_neg hdenp]
  congr 1
  rw [mul_div_assoc, ← div_pow, hbase]

theorem score_upper_val (l bench minb maxb bh : ℚ) (p : ℤ) (cid : ℕ)
    (dns : ℚ) (hp : 0 < p) (hb : 0 < bench) (h1 : minb < bench)
    (h2 : bench < maxb) (hl1 : bench ≤ l) (hl2 : l ≤ maxb) :
    compute_score (some l) (some bench) (some minb) (some maxb) (some p) bh
      (some cid) (some cid) dns =
      .pyval (bh - bh * ((l - bench) / (maxb - bench)) ^ p.toNat) := by
  have hple : ¬ p ≤ 0 := by omega
  have hble : ¬ bench ≤ 0 := by linarith
  have hge : ¬ minb ≥ maxb := by linarith
  have hlt : ¬ l < minb := by linarith
  have hgt : ¬ l > maxb := by linarith
  have hn : p.toNat ≠ 0 := by omega
  have hdenu : maxb - bench ≠ 0 := sub_ne_zero_of_ne (ne_of_gt h2)
  have hdenup : (maxb - bench) ^ p.toNat ≠ 0 := pow_ne_zero _ hdenu
  rcases eq_or_lt_of_le hl1 with heq | hlt2
  · have hden : minb - bench ≠ 0 := sub_ne_zero_of_ne (ne_of_lt h1)
    have hdenp : (minb - bench) ^ p.toNat ≠ 0 := pow_ne_zero _ hden
    subst heq
    simp only [compute_score, lowerBranch]
    rw [if_neg hple, if_neg (not_not_intro rfl), if_neg hble, if_neg hge,
        if_neg hlt, if_neg hgt, if_pos ⟨le_of_lt h1, le_refl bench⟩,
        if_neg hdenp]
    congr 1
    simp [sub_self, zero_pow hn]
  · have hnot1 : ¬ (minb ≤ l ∧ l ≤ bench) := by
      intro h
      linarith [h.2]
    simp only [compute_score, upperBranch]
    rw [if_neg hple, if_neg (not_not_intro rfl), if_neg hble, if_neg hge,
        if_neg hlt, if_neg hgt, if_neg hnot1, if_pos ⟨hl1, hl2⟩,
        if_neg hdenup]
    congr 1
    rw [div_pow]
    ring

/-- C6 fails as stated: the parameters bench = minBench = 1, maxBench = 2,
power = 1, benchHeight = 1/2 satisfy every condition the claim quantifies
over (bench > 0, minBench < maxBench, power > 0, benchHeight in [0,1]),
yet at loss = minBench the lower branch divides by
(minBench - bench) ^ power = 0, and the Python result is the nan of
0.0/0.0 rather than 1.0. -/
theorem score_endpoint_counterexample :
    ((1:ℚ) > 0 ∧ (1:ℚ) < 2 ∧ (1:ℤ) > 0 ∧ (0:ℚ) ≤ 1/2 ∧ (1/2:ℚ) ≤ 1) ∧
    compute_score (some 1) (some 1) (some 1) (some 2) (some 1) (1/2)
      (some 2) (some 2) 0 = .pynan ∧
    (PyRes.pynan ≠ .pyval 1) := by
  refine ⟨by norm_num, ?_, by simp⟩
  norm_num [compute_score, lowerBranch]

/-- C6 (amended): for minBench < bench < maxBench (the benchmark strictly
inside the scoring interval), bench > 0, integer power > 0 and benchHeight
in [0,1], compute_score is exactly 1 at loss = minBench, exactly 0 at
loss = maxBench, and both piecewise branches evaluate exactly to
benchHeight at loss = bench. -/
theorem score_endpoints (bench minb maxb bh : ℚ) (p : ℤ) (cid : ℕ)
    (dns : ℚ) (hp : 0 < p) (hbench : 0 < bench) (h1 : minb < bench)
    (h2 : bench < maxb) (hbh0 : 0 ≤ bh) (hbh1 : bh ≤ 1) :
    compute_score (some minb) (some bench) (some minb) (some maxb) (some p)
      bh (some cid) (some cid) dns = .pyval 1 ∧
    compute_score (some maxb) (some bench) (some minb) (some maxb) (some p)
      bh (some cid) (some cid) dns = .pyval 0 ∧
    lowerBranch bench bench minb p.toNat bh = .pyval bh ∧
    upperBranch bench bench maxb p.toNat bh = .pyval bh := by
  have hn : p.toNat ≠ 0 := by omega
  have hden2 : bench - minb ≠ 0 := sub_ne_zero_of_ne (ne_of_gt h1)
  have hdenl : (minb - bench) ^ p.toNat ≠ 0 :=
    pow_ne_zero _ (sub_ne_zero_of_ne (ne_of_lt h1))
  have hdenu2 : maxb - bench ≠ 0 := sub_ne_zero_of_ne (ne_of_gt h2)
  have hdenu : (maxb - bench) ^ p.toNat ≠ 0 := pow_ne_zero _ hdenu2
  refine ⟨?_, ?_, ?_, ?_⟩
  · rw [score_lower_val minb bench minb maxb bh p cid dns hp hbench h1 h2
      le_rfl (le_of_lt h1)]
    congr 1
    rw [div_self hden2, one_pow]
    ring
  · rw [score_upper_val maxb bench minb maxb bh p cid dns hp hbench h1 h2
      (le_of_lt h2) le_rfl]
    congr 1
    rw [div_self hdenu2, one_pow]
    ring
  · simp only [lowerBranch]
    rw [if_neg hdenl]
    congr 1
    simp [sub_self, zero_pow hn]
  · simp only [upperBranch]
    rw [if_neg hdenu]
    congr 1
    simp [sub_self, zero_pow hn]

theorem score_endpoints_witness :
    compute_score (some 1) (some 2) (some 1) (some 3) (some 2) (1/2)
      (some 7) (some 7) 0 = .pyval 1 ∧
    compute_score (some 3) (some 2) (some 1) (some 3) (some 2) (1/2)
      (some 7) (some 7) 0 = .pyval 0 ∧
    lowerBranch 2 2 1 (2:ℤ).toNat (1/2) = .pyval (1/2) ∧
    upperBranch 2 2 3 (2:ℤ).toNat (1/2) = .pyval (1/2) :=
  score_endpoints 2 1 3 (1/2) 2 7 0 (by norm_num) (by norm_num)
    (by norm_num) (by norm_num) (by norm_num) (by norm_num)

/-- C7 fails as stated: at bench = minBench = 1 (allowed by the claim,
which only requires bench > 0 and minBench < maxBench) and
l1 = l2 = 1 both lying in the segment, compute_score evaluates to nan
on both sides, and the numpy comparison nan >= nan is false. -/
theorem score_monotone_counterexample :
    ((1:ℚ) > 0 ∧ (1:ℚ) < 2 ∧ (1:ℤ) > 0 ∧ (0:ℚ) ≤ 1/2 ∧ (1/2:ℚ) ≤ 1 ∧
      (1:ℚ) ≤ 1) ∧
    compute_score (some 1) (some 1) (some 1) (some 2) (some 1) (1/2)
      (some 2) (some 2) 0 = .pynan ∧
    pyGe
      (compute_score (some 1) (some 1) (some 1) (some 2) (some 1) (1/2)
        (some 2) (some 2) 0)
      (compute_score (some 1) (some 1) (some 1) (some 2) (some 1) (1/2)
        (some 2) (some 2) 0) = false := by
  have hs : compute_score (some 1) (some 1) (some 1) (some 2) (some 1) (1/2)
      (some 2) (some 2) 0 = .pynan := by
    norm_num [compute_score, lowerBranch]
  refine ⟨by norm_num, hs, ?_⟩
  rw [hs]
  rfl

/-- C7 (amended): for minBench < bench < maxBench, bench > 0, integer
power > 0 and benchHeight in [0,1], compute_score is monotonically
non-increasing in the loss on each piecewise segment: for l1 at most l2
both in [minBench, bench], or both in [bench, maxBench], the score at l1
is at least the score at l2 (numerically, in the numpy sense of pyGe). -/
theorem score_monotone (bench minb maxb bh l1 l2 : ℚ) (p : ℤ) (cid : ℕ)
    (dns : ℚ) (hp : 0 < p) (hbench : 0 < bench) (h1 : minb < bench)
    (h2 : bench < maxb) (hbh0 : 0 ≤ bh) (hbh1 : bh ≤ 1) (hl : l1 ≤ l2)
    (hseg : (minb ≤ l1 ∧ l2 ≤ bench) ∨ (bench ≤ l1 ∧ l2 ≤ maxb)) :
    pyGe
      (compute_score (some l1) (some bench) (some minb) (some maxb)
        (some p) bh (some cid) (some cid) dns)
      (compute_score (some l2) (some bench) (some minb) (some maxb)
        (some p) bh (some cid) (some cid) dns) = true := by
  rcases hseg with ⟨ha, hb⟩ | ⟨ha, hb⟩
  · rw [score_lower_val l1 bench minb maxb bh p cid dns hp hbench h1 h2
      ha (by linarith),
      score_lower_val l2 bench minb maxb bh p cid dns hp hbench h1 h2
      (by linarith) hb]
    simp only [pyGe, decide_eq_true_eq]
    have hdpos : (0:ℚ) < bench - minb := by linarith
    have ht2nn : 0 ≤ (bench - l2) / (bench - minb) :=
      div_nonneg (by linarith) (le_of_lt hdpos)
    have htle : (bench - l2) / (bench - minb) ≤ (bench - l1) / (bench - minb) :=
      (div_le_div_right hdpos).mpr (by linarith)
    have hpow := pow_le_pow_left ht2nn htle p.toNat
    have h1bh : (0:ℚ) ≤ 1 - bh := by linarith
    have := mul_le_mul_of_nonneg_left hpow h1bh
    linarith
  · rw [score_upper_val l1 bench minb maxb bh p cid dns hp hbench h1 h2
      ha (by linarith),
      score_upper_val l2 bench minb maxb bh p cid dns hp hbench h1 h2
      (by linarith) hb]
    simp only [pyGe, decide_eq_true_eq]
    have hdpos : (0:ℚ) < maxb - bench := by linarith
    have ht1nn : 0 ≤ (l1 - bench) / (maxb - bench) :=
      div_nonneg (by linarith) (le_of_lt hdpos)
    have htle : (l1 - bench) / (maxb - bench) ≤ (l2 - bench) / (maxb - bench) :=
      (div_le_div_right hdpos).mpr (by linarith)
    have hpow := pow_le_pow_left ht1nn htle p.toNat
    have := mul_le_mul_of_nonneg_left hpow hbh0
    linarith

theorem score_monotone_witness :
    pyGe
      (compute_score (some (3/2)) (some 2) (some 1) (some 3) (some 2) (1/2)
        (some 7) (some 7) 0)
      (compute_score (some 2) (some 2) (some 1) (some 3) (some 2) (1/2)
        (some 7) (some 7) 0) = true :=
  score_monotone 2 1 3 (1/2) (3/2) 2 2 7 0 (by norm_num) (by norm_num)
    (by norm_num) (by norm_num) (by norm_num) (by norm_num) (by norm_num)
    (Or.inl ⟨by norm_num, by norm_num⟩)

/-- C8: compute_score is a total function of its inputs (it never raises);
loss None yields exactly 0; and each of the six validation failures -
power None or nonpositive, expected competition id None, competition id
mismatch, bench None or nonpositive, minBench or maxBench None, and
minBench at least maxBench - yields DEFAULT_NORMALIZED_SCORE (dns), with
the first failing check in the listed order deciding the result
irrespective of every later parameter. -/
theorem score_validation_order :
    (∀ (b mn mx : Option ℚ) (p : Option ℤ) (bh : ℚ) (mc rc : Option ℕ)
        (dns : ℚ),
      compute_score none b mn mx p bh mc rc dns = .pyval 0) ∧
    (∀ (l : ℚ) (b mn mx : Option ℚ) (p : Option ℤ) (bh : ℚ)
        (mc rc : Option ℕ) (dns : ℚ),
      (p = none ∨ ∃ z, p = some z ∧ z ≤ 0) →
      compute_score (some l) b mn mx p bh mc rc dns = .pyval dns) ∧
    (∀ (l : ℚ) (b mn mx : Option ℚ) (z : ℤ) (bh : ℚ) (mc : Option ℕ)
        (dns : ℚ),
      0 < z →
      compute_score (some l) b mn mx (some z) bh mc none dns = .pyval dns) ∧
    (∀ (l : ℚ) (b mn mx : Option ℚ) (z : ℤ) (bh : ℚ) (mc : Option ℕ)
        (rc : ℕ) (dns : ℚ),
      0 < z → mc ≠ some rc →
      compute_score (some l) b mn mx (some z) bh mc (some rc) dns
        = .pyval dns) ∧
    (∀ (l : ℚ) (b mn mx : Option ℚ) (z : ℤ) (bh : ℚ) (rc : ℕ) (dns : ℚ),
      0 < z → (b = none ∨ ∃ q, b = some q ∧ q ≤ 0) →
      compute_score (some l) b mn mx (some z) bh (some rc) (some rc) dns
        = .pyval dns) ∧
    (∀ (l q : ℚ) (mn mx : Option ℚ) (z : ℤ) (bh : ℚ) (rc : ℕ) (dns : ℚ),
      0 < z → 0 < q → (mn = none ∨ mx = none) →
      compute_score (some l) (some q) mn mx (some z) bh (some rc) (some rc)
        dns = .pyval dns) ∧
    (∀ (l q mn mx : ℚ) (z : ℤ) (bh : ℚ) (rc : ℕ) (dns : ℚ),
      0 < z → 0 < q → mn ≥ mx →
      compute_score (some l) (some q) (some mn) (some mx) (some z) bh
        (some rc) (some rc) dns = .pyval dns) := by
  refine ⟨?_, ?_, ?_, ?_, ?_, ?_, ?_⟩
  · intro b mn mx p bh mc rc dns
    simp [compute_score]
  · rintro l b mn mx p bh mc rc dns (rfl | ⟨z, rfl, hz⟩)
    · simp [compute_score]
    · simp [compute_score, hz]
  · intro l b mn mx z bh mc dns hz
    simp [compute_score, not_le.mpr hz]
  · intro l b mn mx z bh mc rc dns hz hmc
    simp [compute_score, not_le.mpr hz, hmc]
  · rintro l b mn mx z bh rc dns hz (rfl | ⟨q, rfl, hq⟩)
    · simp [compute_score, not_le.mpr hz]
    · simp [compute_score, not_le.mpr hz, hq]
  · rintro l q mn mx z bh rc dns hz hq (rfl | rfl)
    · simp [compute_score, not_le.mpr hz, not_le.mpr hq]
    · cases mn <;> simp [compute_score, not_le.mpr hz, not_le.mpr hq]
  · intro l q mn mx z bh rc dns hz hq hmm
    simp [compute_score, not_le.mpr hz, not_le.mpr hq, hmm]

theorem score_validation_order_witness :
    compute_score (some 1) (some 1) (some 0) (some 1) (some (-2)) 0
      (some 2) (some 2) (3/7) = .pyval (3/7) ∧
    compute_score (some 1) (some 1) (some 0) (some 1) (some 2) 0
      (some 3) (some 2) (3/7) = .pyval (3/7) ∧
    compute_score (some 1) (some 1) (some 3) (some 2) (some 2) 0
      (some 2) (some 2) (3/7) = .pyval (3/7) :=
  ⟨score_validation_order.2.1 1 (some 1) (some 0) (some 1) (some (-2)) 0
      (some 2) (some 2) (3/7) (Or.inr ⟨-2, rfl, by norm_num⟩),
   score_validation_order.2.2.2.1 1 (some 1) (some 0) (some 1) 2 0
      (some 3) 2 (3/7) (by norm_num) (by simp),
   score_validation_order.2.2.2.2.2.2 1 1 3 2 2 0 2 (3/7) (by norm_num)
      (by norm_num) (by norm_num)⟩

/-- C10: once the validation prefix is passed (positive power, positive
bench, minBench < maxBench), the piecewise guards of compute_score cover
every rational loss - including when bench lies outside
[minBench, maxBench] - so the implicit Python None fall-through at the end
of the function is unreachable and the result always comes from an
explicit return. -/
theorem score_never_fallthrough (l bench minb maxb bh : ℚ) (p : ℤ)
    (mc rc : ℕ) (dns : ℚ) (hp : 0 < p) (hbench : 0 < bench)
    (hmm : minb < maxb) :
    compute_score (some l) (some bench) (some minb) (some maxb) (some p) bh
      (some mc) (some rc) dns ≠ .pynone := by
  have hple : ¬ p ≤ 0 := by omega
  have hble : ¬ bench ≤ 0 := by linarith
  have hge : ¬ minb ≥ maxb := by linarith
  by_cases hmc : (some mc : Option ℕ) ≠ some rc
  · simp [compute_score, hple, hmc]
  · simp only [compute_score, if_neg hple, if_neg hmc, if_neg hble,
      if_neg hge]
    by_cases hlt : l < minb
    · simp [hlt]
    · by_cases hgt : l > maxb
      · simp [hlt, hgt]
      · by_cases hb1 : minb ≤ l ∧ l ≤ bench
        · simp [hlt, hgt, hb1, lowerBranch_ne_pynone]
        · have hb2 : bench ≤ l ∧ l ≤ maxb := by
            push_neg at hlt hgt hb1
            exact ⟨by linarith [hb1 hlt], by linarith⟩
          simp [hlt, hgt, hb1, hb2, upperBranch_ne_pynone]

theorem score_never_fallthrough_witness :
    compute_score (some 5) (some 2) (some 1) (some 3) (some 2) (1/2)
      (some 7) (some 7) 0 ≠ .pynone :=
  score_never_fallthrough 5 2 1 3 (1/2) 2 7 7 0 (by norm_num) (by norm_num)
    (by norm_num)
